import Mathlib

/-!
Shallow embedding of the connection layer in src/socket.c (isync fork with
COMPRESS=DEFLATE support) and proofs about its write queue, read buffer,
TLS hostname verification, compression plumbing and connect iteration.

Bytes are modelled as Char, byte buffers as List Char.  The underlying
transport (write(2) / SSL_write) is modelled by a schedule: a list of
"accept counts", one consumed per low-level write call; the transport
accepts min(accept, requested) bytes, where 0 models EAGAIN /
SSL_ERROR_WANT_*.  Errors are modelled separately where a claim needs them.
-/

namespace SocketModel

/-- Payload of one write-queue node (buff_chunk_t: data, len). -/
abbrev Chunk := List Char

/-- Write-queue part of conn_t: the chunk list write_buf (head first) and
write_offset, the number of bytes of the head chunk already transmitted. -/
structure WQState where
  write_buf : List Chunk
  write_offset : Nat
deriving Repr, DecidableEq

/-- Bytes not yet handed to the transport: the rest of the head chunk past
write_offset, then all later chunks whole. -/
def pendingBytes (st : WQState) : List Char :=
  match st.write_buf with
  | [] => []
  | bc :: rest => bc.drop st.write_offset ++ rest.flatten

/-- Structural invariant of the write queue: write_offset is 0 when the
queue is empty and never exceeds the head chunk's length, i.e. only the
head chunk is ever partially transmitted. -/
def wqInv (st : WQState) : Prop :=
  match st.write_buf with
  | [] => st.write_offset = 0
  | bc :: _ => st.write_offset ≤ bc.length

instance (st : WQState) : Decidable (wqInv st) := by
  unfold wqInv
  cases st.write_buf <;> infer_instance

/-- Embedding of the while loop of do_queued_write (socket.c:744-754) on a
non-compressed connection.  Each do_write call consumes one accept count
from the schedule and transmits min(accept, len) bytes of the head chunk
past write_offset; a short write updates write_offset and stops, a full
write resets write_offset and disposes the chunk.  Returns the bytes handed
to the transport, the remaining queue, the new write_offset and the unused
schedule. -/
def do_queued_write_loop :
    List Chunk → Nat → List Nat → List Char × List Chunk × Nat × List Nat
  | [], woff, sched => ([], [], woff, sched)
  | bc :: rest, woff, sched =>
      let len := bc.length - woff
      let n := min (sched.headD 0) len
      if n = len then
        let r := do_queued_write_loop rest 0 sched.tail
        ((bc.drop woff).take n ++ r.1, r.2.1, r.2.2.1, r.2.2.2)
      else
        ((bc.drop woff).take n, bc :: rest, woff + n, sched.tail)

/-- Result of do_queued_write: transmitted bytes, new queue state, unused
schedule, and whether fake_fd(fd, POLLIN) was issued (socket.c:756-757). -/
structure DrainRes where
  sent : List Char
  st : WQState
  sched : List Nat
  fake : Bool
deriving Repr, DecidableEq

/-- Embedding of do_queued_write (socket.c:736-760).  An empty queue
returns at once (no fake_fd, no write callback).  Otherwise the loop runs;
if it empties the queue and the connection is TLS with SSL_pending data
(oracle sslPending), a fake readable event is injected before the write
callback fires. -/
def do_queued_write (st : WQState) (sched : List Nat) (sslPending : Bool) :
    DrainRes :=
  match st.write_buf with
  | [] => ⟨[], st, sched, false⟩
  | _ :: _ =>
      let r := do_queued_write_loop st.write_buf st.write_offset sched
      ⟨r.1, ⟨r.2.1, r.2.2.1⟩, r.2.2.2, r.2.1.isEmpty && sslPending⟩

/-- Embedding of socket_write (socket.c:781-797) on a non-compressed
connection with a non-erring transport.  If the queue is nonempty the
payload is only appended (do_append); otherwise one immediate do_write is
attempted and, when short, the whole payload is queued with write_offset
marking the transmitted prefix.  Returns transmitted bytes, new state and
unused schedule. -/
def socket_write (st : WQState) (data : Chunk) (sched : List Nat) :
    List Char × WQState × List Nat :=
  match st.write_buf with
  | _ :: _ => ([], ⟨st.write_buf ++ [data], st.write_offset⟩, sched)
  | [] =>
      let n := min (sched.headD 0) data.length
      if n = data.length then
        (data.take n, st, sched.tail)
      else
        (data.take n, ⟨[data], n⟩, sched.tail)

/-- One caller-visible operation on the write side: a socket_write call or
a writable-readiness drain via do_queued_write. -/
inductive WOp where
  | wr (data : Chunk)
  | drain
deriving Repr, DecidableEq

/-- Run a sequence of write operations against one transport schedule,
collecting all bytes handed to the transport in order. -/
def runWOps : WQState → List WOp → List Nat → List Char × WQState × List Nat
  | st, [], sched => ([], st, sched)
  | st, WOp.wr d :: ops, sched =>
      let r := socket_write st d sched
      let rest := runWOps r.2.1 ops r.2.2
      (r.1 ++ rest.1, rest.2)
  | st, WOp.drain :: ops, sched =>
      let r := do_queued_write st sched false
      let rest := runWOps r.st ops r.sched
      (r.sent ++ rest.1, rest.2)

/-- Concatenation of all payloads passed to socket_write, in call order. -/
def payloads (ops : List WOp) : List Char :=
  (ops.filterMap fun op => match op with | WOp.wr d => some d | WOp.drain => none).flatten

/-! Read side: conn_t's buf / offset / bytes / scanoff and socket_fill,
socket_read_line (socket.c:546-620). -/

/-- Read-buffer part of conn_t.  buf models the whole physical array
conn->buf, so buf.length is the capacity sizeof(conn->buf); offset is the
first unconsumed position, bytes the unconsumed count, scanoff how far
line scanning has progressed. -/
structure RdState where
  buf : List Char
  offset : Nat
  bytes : Nat
  scanoff : Nat
deriving Repr, DecidableEq

/-- Result of the raw read(2) call inside socket_fill: some data (read
returned a positive count), EOF (returned 0), or a negative return whose
errno either is EAGAIN/EWOULDBLOCK (wouldBlock true) or a real error. -/
inductive RdRes where
  | rdata (d : List Char)
  | eof
  | rerr (wouldBlock : Bool)
deriving Repr, DecidableEq

/-- Observable outcome of one socket_fill call: which callback fired.
fatalFull/fatalErr/fatalEof all invoke socket_fail (the bad_callback);
blockedOut is a silent return (SSL want-read/want-write); readCb invokes
the read callback, with fake recording whether fake_fd(fd, POLLIN) was
issued first. -/
inductive FillOut where
  | fatalFull
  | fatalErr
  | fatalEof
  | blockedOut
  | readCb (fake : Bool)
deriving Repr, DecidableEq

/-- Overwrite the contents of l from position i on with d, keeping the
rest (the effect of reading d.length bytes into the buffer tail at i). -/
def listOverwrite (l : List Char) (i : Nat) (d : List Char) : List Char :=
  l.take i ++ d ++ l.drop (i + d.length)

/-- Embedding of socket_fill (socket.c:546-580) on a plain (non-TLS)
connection.  The in_z argument models conn->in_z (compression enabled by
socket_start_deflate); the function body mirrors the C, which has no
decompression branch, so in_z is never consulted.  Note the C code treats
every negative read(2) result as fatal: there is no EAGAIN check in this
path. -/
def socket_fill (st : RdState) (in_z : Bool) (res : RdRes) : FillOut × RdState :=
  let n := st.offset + st.bytes
  let len := st.buf.length - n
  if len = 0 then (.fatalFull, st)
  else
    match res with
    | .rerr _ => (.fatalErr, st)
    | .eof => (.fatalEof, st)
    | .rdata d =>
        (.readCb false,
         { st with buf := listOverwrite st.buf n d, bytes := st.bytes + d.length })

/-- Result of SSL_read as classified by ssl_return: decrypted data,
want-read/want-write (maps to 0, a silent return), or an SSL error (maps
to -1, with socket_fail invoked since state is SCK_READY). -/
inductive SslRdRes where
  | sdata (d : List Char)
  | wantRW
  | serr
deriving Repr, DecidableEq

/-- Embedding of socket_fill on a TLS connection (socket.c:560-565).
After a successful SSL_read of n bytes, if n filled the whole remaining
capacity and SSL_pending is nonzero (oracle pending), fake_fd(fd, POLLIN)
is issued before the read callback. -/
def socket_fill_ssl (st : RdState) (res : SslRdRes) (pending : Bool) :
    FillOut × RdState :=
  let n := st.offset + st.bytes
  let len := st.buf.length - n
  if len = 0 then (.fatalFull, st)
  else
    match res with
    | .serr => (.fatalErr, st)
    | .wantRW => (.blockedOut, st)
    | .sdata d =>
        (.readCb (decide (d.length = len) && pending),
         { st with buf := listOverwrite st.buf n d, bytes := st.bytes + d.length })

/-- Absolute index of the first c at or after position start within the
next len positions, as memchr(l + start, c, len) computes it. -/
def memchrFrom (l : List Char) (start len : Nat) (c : Char) : Option Nat :=
  match ((l.drop start).take len).findIdx? (fun x => x = c) with
  | none => none
  | some j => some (start + j)

/-- The memmove compaction in socket_read_line: move the bytes unconsumed
bytes at offset to the front; the array tail beyond them is unchanged. -/
def compactBuf (l : List Char) (offset bytes : Nat) : List Char :=
  (l.drop offset).take bytes ++ l.drop bytes

/-- Embedding of socket_read_line (socket.c:596-620).  Scans for a newline
from offset + scanoff; if none is found, records scanoff = bytes and
compacts the buffer when it is physically full; otherwise consumes the
line including its terminator, strips a trailing carriage return, writes
the NUL terminator into the buffer (*p = 0) and resets scanoff. -/
def socket_read_line (b : RdState) : Option (List Char) × RdState :=
  match memchrFrom b.buf (b.offset + b.scanoff) (b.bytes - b.scanoff) '\n' with
  | none =>
      if b.offset + b.bytes = b.buf.length then
        (none, { b with buf := compactBuf b.buf b.offset b.bytes,
                        offset := 0, scanoff := b.bytes })
      else
        (none, { b with scanoff := b.bytes })
  | some p =>
      let n := p + 1 - b.offset
      let raw := (b.buf.drop b.offset).take (p - b.offset)
      if raw.getLast? = some '\r' then
        (some raw.dropLast,
         { b with buf := b.buf.set (p - 1) '\x00',
                  offset := b.offset + n, bytes := b.bytes - n, scanoff := 0 })
      else
        (some raw,
         { b with buf := b.buf.set p '\x00',
                  offset := b.offset + n, bytes := b.bytes - n, scanoff := 0 })

/-! TLS layer: hostname matching and certificate verification
(socket.c:98-186). -/

/-- Case-insensitive string equality, modelling strcasecmp(a, b) == 0. -/
def strcaseeq (a b : List Char) : Bool :=
  a.map Char.toLower == b.map Char.toLower

/-- Suffix of l after its first '.', as strchr(l, '.') followed by the
host++ step computes it; none when l has no '.'. -/
def afterFirstDot : List Char → Option (List Char)
  | [] => none
  | c :: cs => if c = '.' then some cs else afterFirstDot cs

/-- Embedding of host_matches (socket.c:98-109): a pattern starting with
the two characters '*' '.' strips them and replaces host by its part after
the first '.' (failing if there is none); then both strings must be
nonempty and equal case-insensitively. -/
def host_matches (host pattern : List Char) : Bool :=
  match pattern with
  | p0 :: p1 :: pat =>
      if p0 = '*' ∧ p1 = '.' then
        match afterFirstDot host with
        | none => false
        | some h => !h.isEmpty && !pat.isEmpty && strcaseeq h pat
      else
        !host.isEmpty && !(p0 :: p1 :: pat).isEmpty && strcaseeq host (p0 :: p1 :: pat)
  | _ =>
      !host.isEmpty && !pattern.isEmpty && strcaseeq host pattern

/-- One subjectAltName entry of a certificate: whether its type is GEN_DNS
and its name.  (The C guard strlen(data) == length only rejects byte
arrays that misrepresent the declared string; names here are abstract
strings, for which that guard is identically true.) -/
structure SanEntry where
  isDNS : Bool
  name : List Char
deriving Repr, DecidableEq

/-- Abstract X509 certificate: its subjectAltName entries and its optional
common name.  Equality of the abstract values models X509_cmp == 0. -/
structure Cert where
  sanEntries : List SanEntry
  commonName : Option (List Char)
deriving Repr, DecidableEq

/-- Embedding of verify_hostname (socket.c:111-152): the DNS-type
subjectAltNames are tried first; only if none matches is the common name
consulted; a certificate without a common name fails at that point. -/
def verify_hostname (cert : Cert) (hostname : List Char) : Int :=
  if cert.sanEntries.any (fun s => s.isDNS && host_matches hostname s.name) then 0
  else
    match cert.commonName with
    | none => -1
    | some cname => if host_matches hostname cname then 0 else -1

/-- TLS-verification view of server_conf_t: the first num_trusted
certificates of the SSL context's store (those loaded from the configured
certificate file) and the configured hostname. -/
structure VerifyConf where
  trusted : List Cert
  host : Option (List Char)
deriving Repr, DecidableEq

/-- Embedding of verify_cert_host (socket.c:154-186).  peer models
SSL_get_peer_certificate (none when the server sent no certificate) and
chainOk the oracle SSL_get_verify_result == X509_V_OK.  The explicit-trust
loop runs first and short-circuits every other check. -/
def verify_cert_host (conf : VerifyConf) (peer : Option Cert) (chainOk : Bool) :
    Int :=
  match peer with
  | none => -1
  | some cert =>
      if conf.trusted.any (fun t => cert == t) then 0
      else if !chainOk then -1
      else
        match conf.host with
        | none => -1
        | some h => verify_hostname cert h

/-! Connect iteration (socket.c:343-525). -/

/-- Caller-visible action during socket_connect: an invocation of the
connect callback with its ok flag, or the closing of a failed candidate's
descriptor inside socket_connect_failed. -/
inductive ConnEv where
  | connectCb (ok : Bool)
  | closeFd
deriving Repr, DecidableEq

/-- Embedding of the socket_connect_one / socket_connect_failed /
socket_connected / socket_connect_bail cycle (socket.c:415-525).  Each
candidate address either eventually connects (true) or fails (false);
an immediate connect error and a deferred SO_ERROR via socket_fd_cb both
funnel into socket_connect_failed, which closes the descriptor, advances
curr_addr and calls socket_connect_one again; running out of candidates
reaches socket_connect_bail.  Returns the emitted actions in order. -/
def socket_connect_one : List Bool → List ConnEv
  | [] => [.connectCb false]
  | true :: _ => [.connectCb true]
  | false :: rest => .closeFd :: socket_connect_one rest

/-- Embedding of socket_connect's resolution phase (socket.c:343-413): a
getaddrinfo failure bails at once with a failure callback and no connect
attempts; otherwise the resolved candidates are iterated. -/
def socket_connect (resolved : Option (List Bool)) : List ConnEv :=
  match resolved with
  | none => [.connectCb false]
  | some addrs => socket_connect_one addrs

/-- True exactly for connect-callback actions. -/
def isConnectCb : ConnEv → Bool
  | .connectCb _ => true
  | .closeFd => false

/-! Compression layer (socket.c:281-326, 652-723). -/

/-- Compression fields of conn_t: whether the in_z (inflate) and out_z
(deflate) stream states have been allocated. -/
structure ZStreams where
  in_z : Bool
  out_z : Bool
deriving Repr, DecidableEq

/-- Embedding of socket_start_deflate (socket.c:292-325): allocates and
initializes both codec states; a second call returns at once. -/
def socket_start_deflate (z : ZStreams) : ZStreams :=
  if z.in_z then z else ⟨true, true⟩

/-- Embedding of the compressed do_write (socket.c:653-722) with a
non-erring transport.  leftover is the in_z_leftover / in_z_leftover_len
window of compressed residue from an earlier call; zout is the compressed
output the deflate Z_SYNC_FLUSH loop produces for this call's input of len
uncompressed bytes; a1 and a2 are the transport accept counts for the (at
most two) do_write_inner calls.  Returns the bytes handed to the
transport, the new leftover window and the C return value.  Faithful to
the C: when the leftover writes out completely, in_z_leftover_len is NOT
reset, so whenever the following compressed output is then written
completely (or not at all), the already-transmitted window survives as the
leftover of the next call. -/
def do_write_z (leftover zout : List Char) (len : Nat) (a1 a2 : Nat) :
    List Char × List Char × Int :=
  if leftover.isEmpty then
    let r := min a1 zout.length
    if 0 < r ∧ r < zout.length then
      (zout.take r, zout.drop r, (len : Int))
    else
      (zout.take r, leftover, (len : Int))
  else
    let r := min a1 leftover.length
    if r < leftover.length then
      (leftover.take r, leftover.drop r, 0)
    else
      let r2 := min a2 zout.length
      if 0 < r2 ∧ r2 < zout.length then
        (leftover ++ zout.take r2, zout.drop r2, (len : Int))
      else
        (leftover ++ zout.take r2, leftover, (len : Int))

/-- Run successive compressed do_write calls: each call supplies its
deflate output, its uncompressed length and its two accept counts;
collects all bytes handed to the transport. -/
def run_z : List Char → List (List Char × Nat × Nat × Nat) → List Char
  | _, [] => []
  | leftover, (zout, len, a1, a2) :: calls =>
      let r := do_write_z leftover zout len a1 a2
      r.1 ++ run_z r.2.1 calls

/-! Write-queue lemmas. -/

lemma pendingBytes_zero (q : List Chunk) : pendingBytes ⟨q, 0⟩ = q.flatten := by
  cases q <;> simp [pendingBytes]

lemma wqInv_zero (q : List Chunk) : wqInv ⟨q, 0⟩ := by
  cases q <;> simp [wqInv]

lemma do_queued_write_loop_spec (q : List Chunk) : ∀ (woff : Nat) (sched : List Nat),
    wqInv ⟨q, woff⟩ →
    (do_queued_write_loop q woff sched).1 ++
        pendingBytes ⟨(do_queued_write_loop q woff sched).2.1,
          (do_queued_write_loop q woff sched).2.2.1⟩ =
      pendingBytes ⟨q, woff⟩ ∧
    wqInv ⟨(do_queued_write_loop q woff sched).2.1,
      (do_queued_write_loop q woff sched).2.2.1⟩ := by
  induction q with
  | nil =>
      intro woff sched h
      simp only [wqInv] at h
      simp [do_queued_write_loop, pendingBytes, wqInv, h]
  | cons bc rest ih =>
      intro woff sched h
      simp only [wqInv] at h
      by_cases hn : min (sched.headD 0) (bc.length - woff) = bc.length - woff
      · have hlen : (bc.drop woff).length = bc.length - woff := by
          simp [List.length_drop]
        have htake : (bc.drop woff).take (min (sched.headD 0) (bc.length - woff)) =
            bc.drop woff := by
          rw [hn, ← hlen, List.take_length]
        have hrest := ih 0 sched.tail (wqInv_zero rest)
        simp only [do_queued_write_loop]
        rw [if_pos hn]
        dsimp only
        rw [htake]
        constructor
        · rw [List.append_assoc, hrest.1, pendingBytes_zero]
          simp [pendingBytes]
        · exact hrest.2
      · have hle : min (sched.headD 0) (bc.length - woff) ≤ bc.length - woff :=
          Nat.min_le_right _ _
        simp only [do_queued_write_loop]
        rw [if_neg hn]
        dsimp only
        constructor
        · simp only [pendingBytes]
          rw [← List.append_assoc]
          congr 1
          have hdd : bc.drop (woff + min (sched.headD 0) (bc.length - woff)) =
              (bc.drop woff).drop (min (sched.headD 0) (bc.length - woff)) := by
            rw [List.drop_drop, Nat.add_comm]
          rw [hdd, List.take_append_drop]
        · simp only [wqInv]
          omega

lemma do_queued_write_spec (st : WQState) (sched : List Nat) (p : Bool)
    (h : wqInv st) :
    (do_queued_write st sched p).sent ++ pendingBytes (do_queued_write st sched p).st =
      pendingBytes st ∧
    wqInv (do_queued_write st sched p).st := by
  obtain ⟨q, woff⟩ := st
  cases q with
  | nil =>
      simp only [wqInv] at h
      refine ⟨?_, ?_⟩
      · simp [do_queued_write, pendingBytes]
      · simp [do_queued_write, wqInv, h]
  | cons bc rest =>
      have hq := do_queued_write_loop_spec (bc :: rest) woff sched h
      simpa [do_queued_write] using hq

lemma socket_write_spec (st : WQState) (data : Chunk) (sched : List Nat)
    (h : wqInv st) :
    (socket_write st data sched).1 ++ pendingBytes (socket_write st data sched).2.1 =
      pendingBytes st ++ data ∧
    wqInv (socket_write st data sched).2.1 := by
  obtain ⟨q, woff⟩ := st
  cases q with
  | nil =>
      simp only [wqInv] at h
      by_cases hn : min (sched.headD 0) data.length = data.length
      · have htake : data.take (min (sched.headD 0) data.length) = data := by
          rw [hn, List.take_length]
        simp only [socket_write]
        rw [if_pos hn]
        dsimp only
        rw [htake]
        refine ⟨?_, ?_⟩
        · simp [pendingBytes]
        · simp [wqInv, h]
      · simp only [socket_write]
        rw [if_neg hn]
        dsimp only
        refine ⟨?_, ?_⟩
        · simp only [pendingBytes, List.flatten_nil, List.append_nil, List.nil_append]
          exact List.take_append_drop _ _
        · simp [wqInv, Nat.min_le_right]
  | cons bc rest =>
      simp only [wqInv] at h
      constructor
      · simp [socket_write, pendingBytes, List.flatten_append]
      · simpa [socket_write, wqInv] using h

/-- Invariant preservation and byte accounting over an arbitrary
operation sequence. -/
lemma runWOps_spec (ops : List WOp) : ∀ (st : WQState) (sched : List Nat),
    wqInv st →
    (runWOps st ops sched).1 ++ pendingBytes (runWOps st ops sched).2.1 =
      pendingBytes st ++ payloads ops ∧
    wqInv (runWOps st ops sched).2.1 := by
  induction ops with
  | nil =>
      intro st sched h
      simp [runWOps, payloads, h]
  | cons op ops ih =>
      intro st sched h
      cases op with
      | wr d =>
          have h1 := socket_write_spec st d sched h
          have h2 := ih (socket_write st d sched).2.1 (socket_write st d sched).2.2 h1.2
          refine ⟨?_, h2.2⟩
          simp only [runWOps]
          rw [List.append_assoc, h2.1, ← List.append_assoc, h1.1, List.append_assoc]
          simp [payloads]
      | drain =>
          have h1 := do_queued_write_spec st sched false h
          have h2 := ih (do_queued_write st sched false).st
            (do_queued_write st sched false).sched h1.2
          refine ⟨?_, h2.2⟩
          simp only [runWOps]
          rw [List.append_assoc, h2.1, ← List.append_assoc, h1.1]
          simp [payloads]

/-! Hostname-matching lemmas. -/

lemma afterFirstDot_cons_dot (cs : List Char) :
    afterFirstDot ('.' :: cs) = some cs := by
  simp [afterFirstDot]

lemma host_matches_wildcard (host rest : List Char) :
    host_matches host ('*' :: '.' :: rest) =
      match afterFirstDot host with
      | none => false
      | some h => !h.isEmpty && !rest.isEmpty && strcaseeq h rest := by
  simp [host_matches]

lemma afterFirstDot_some (l suf : List Char) :
    afterFirstDot l = some suf ↔ ∃ pre, l = pre ++ '.' :: suf ∧ '.' ∉ pre := by
  induction l with
  | nil => simp [afterFirstDot]
  | cons c cs ih =>
      by_cases hc : c = '.'
      · subst hc
        rw [afterFirstDot_cons_dot, Option.some_inj]
        constructor
        · rintro rfl
          exact ⟨[], rfl, by simp⟩
        · rintro ⟨pre, heq, hpre⟩
          cases pre with
          | nil => simpa using heq
          | cons p ps =>
              injection heq with h1 h2
              subst h1
              exact absurd (List.mem_cons_self _ _) hpre
      · simp only [afterFirstDot, if_neg hc, ih]
        constructor
        · rintro ⟨pre, rfl, hpre⟩
          refine ⟨c :: pre, rfl, fun hm => ?_⟩
          rcases List.mem_cons.mp hm with h | h
          · exact hc h.symm
          · exact hpre h
        · rintro ⟨pre, heq, hpre⟩
          cases pre with
          | nil =>
              injection heq with h1 h2
              exact absurd h1 hc
          | cons p ps =>
              injection heq with h1 h2
              subst h1
              exact ⟨ps, h2, fun hm => hpre (List.mem_cons_of_mem _ hm)⟩

/-- C3: host_matches semantics.  A pattern beginning with the two
characters '*' '.' matches exactly the hosts that contain a '.' and whose
suffix after the first '.' is nonempty and equals the nonempty pattern
remainder case-insensitively; any other pattern matches only a host equal
to it case-insensitively, both nonempty; in particular the wildcard
pattern \x2a.example.com matches mail.example.com, and the plain pattern
example.com matches example.com but not sub.example.com. -/
theorem C3_host_matches_spec :
    (∀ host rest : List Char,
        host_matches host ('*' :: '.' :: rest) = true ↔
          ∃ pre suf, host = pre ++ '.' :: suf ∧ '.' ∉ pre ∧
            suf ≠ [] ∧ rest ≠ [] ∧ strcaseeq suf rest = true) ∧
    (∀ host pattern : List Char,
        pattern.take 2 ≠ ['*', '.'] →
        (host_matches host pattern = true ↔
          host ≠ [] ∧ pattern ≠ [] ∧ strcaseeq host pattern = true)) ∧
    host_matches "mail.example.com".toList "*.example.com".toList = true ∧
    host_matches "example.com".toList "example.com".toList = true ∧
    host_matches "sub.example.com".toList "example.com".toList = false := by
  refine ⟨?_, ?_, by decide, by decide, by decide⟩
  · intro host rest
    rcases hafd : afterFirstDot host with _ | suf
    · constructor
      · intro h
        rw [host_matches_wildcard, hafd] at h
        exact Bool.noConfusion h
      · rintro ⟨pre, suf, heq, hpre, -, -, -⟩
        have h2 : afterFirstDot host = some suf :=
          (afterFirstDot_some host suf).mpr ⟨pre, heq, hpre⟩
        rw [hafd] at h2
        exact absurd h2 (by simp)
    · obtain ⟨pre, hdec, hpre⟩ := (afterFirstDot_some host suf).mp hafd
      rw [host_matches_wildcard, hafd]
      constructor
      · intro h
        simp only [Bool.and_eq_true, Bool.not_eq_true', List.isEmpty_eq_false] at h
        exact ⟨pre, suf, hdec, hpre, h.1.1, h.1.2, h.2⟩
      · rintro ⟨pre2, suf2, heq, hpre2, hsuf, hrest, hsc⟩
        have h2 : afterFirstDot host = some suf2 :=
          (afterFirstDot_some host suf2).mpr ⟨pre2, heq, hpre2⟩
        rw [hafd] at h2
        injection h2 with h2
        subst h2
        simp [hsuf, hrest, hsc]
  · intro host pattern htake
    rcases pattern with _ | ⟨p0, _ | ⟨p1, pat⟩⟩
    · simp [host_matches]
    · simp [host_matches]
    · have hnw : ¬(p0 = '*' ∧ p1 = '.') := by
        rintro ⟨rfl, rfl⟩
        exact htake rfl
      simp only [host_matches]
      rw [if_neg hnw]
      simp

/-- Witness for C3: the exact-match rule instantiated at a concrete
non-wildcard pattern. -/
theorem C3_host_matches_spec_witness :
    host_matches ['a', 'b'] ['a', 'b'] = true ↔
      ['a', 'b'] ≠ [] ∧ (['a', 'b'] : List Char) ≠ [] ∧
        strcaseeq ['a', 'b'] ['a', 'b'] = true :=
  C3_host_matches_spec.2.1 ['a', 'b'] ['a', 'b'] (by decide)

/-- C2: verify_cert_host succeeds unconditionally, bypassing chain
verification and hostname checks, whenever the peer certificate is
X509-equal to one of the num_trusted explicitly-trusted certificates;
otherwise, with a configured hostname, it succeeds iff the chain
verification result is OK and either some DNS-type subjectAltName or,
failing that, the common name matches the hostname under host_matches. -/
theorem C2_verify_cert_host_spec :
    (∀ (conf : VerifyConf) (cert : Cert) (chainOk : Bool),
        cert ∈ conf.trusted →
        verify_cert_host conf (some cert) chainOk = 0) ∧
    (∀ (conf : VerifyConf) (cert : Cert) (chainOk : Bool) (h : List Char),
        cert ∉ conf.trusted → conf.host = some h →
        (verify_cert_host conf (some cert) chainOk = 0 ↔
          chainOk = true ∧
            (cert.sanEntries.any (fun s => s.isDNS && host_matches h s.name) = true ∨
              ∃ cname, cert.commonName = some cname ∧ host_matches h cname = true))) := by
  constructor
  · intro conf cert chainOk hmem
    have hany : conf.trusted.any (fun t => cert == t) = true :=
      List.any_eq_true.mpr ⟨cert, hmem, by simp⟩
    simp [verify_cert_host, hany]
  · intro conf cert chainOk h hmem hhost
    have hany : conf.trusted.any (fun t => cert == t) = false := by
      rw [List.any_eq_false]
      intro t ht
      simp only [beq_iff_eq]
      rintro rfl
      exact hmem ht
    cases chainOk with
    | false => simp [verify_cert_host, hany]
    | true =>
        simp only [verify_cert_host, hany, hhost, Bool.not_true, Bool.false_eq_true,
          if_false, if_true, true_and]
        by_cases hsan : cert.sanEntries.any (fun s => s.isDNS && host_matches h s.name) = true
        · simp [verify_hostname, hsan]
        · rcases hcn : cert.commonName with _ | cname
          · simp [verify_hostname, hsan, hcn]
          · by_cases hm : host_matches h cname = true
            · simp only [verify_hostname, hsan, hcn, hm, if_true, if_false]
              exact iff_of_true rfl (Or.inr ⟨cname, rfl, hm⟩)
            · simp [verify_hostname, hsan, hcn, hm]

/-- Witness for C2 at concrete inputs: a trusted certificate is accepted
even with a failed chain, and an untrusted certificate with a matching
DNS subjectAltName satisfies the stated equivalence. -/
theorem C2_verify_cert_host_spec_witness :
    verify_cert_host ⟨[⟨[], none⟩], some ['h']⟩ (some ⟨[], none⟩) false = 0 ∧
    (verify_cert_host ⟨[], some ['h']⟩ (some ⟨[⟨true, ['h']⟩], none⟩) true = 0 ↔
      true = true ∧
        ((Cert.mk [⟨true, ['h']⟩] none).sanEntries.any
            (fun s => s.isDNS && host_matches ['h'] s.name) = true ∨
          ∃ cname, (Cert.mk [⟨true, ['h']⟩] none).commonName = some cname ∧
            host_matches ['h'] cname = true)) :=
  ⟨C2_verify_cert_host_spec.1 ⟨[⟨[], none⟩], some ['h']⟩ ⟨[], none⟩ false (by decide),
   C2_verify_cert_host_spec.2 ⟨[], some ['h']⟩ ⟨[⟨true, ['h']⟩], none⟩ true ['h']
     (by decide) rfl⟩

/-- C1: for every sequence of socket_write calls interleaved with
writable-readiness drains via do_queued_write and arbitrary partial
transmissions by the transport, the bytes handed to the transport followed
by the bytes still pending in the queue equal the concatenation of all
written payloads in call order - no gaps, no duplication, no reordering -
and the final state satisfies the invariant that only the head chunk is
ever partially transmitted. -/
theorem C1_write_stream_faithful (ops : List WOp) (sched : List Nat) :
    (runWOps ⟨[], 0⟩ ops sched).1 ++ pendingBytes (runWOps ⟨[], 0⟩ ops sched).2.1 =
      payloads ops ∧
    wqInv (runWOps ⟨[], 0⟩ ops sched).2.1 := by
  have h := runWOps_spec ops ⟨[], 0⟩ sched (wqInv_zero [])
  simpa [pendingBytes] using h

/-- C6: when offset + bytes already equals the read buffer's physical
capacity, socket_fill performs no read, leaves offset, bytes and the
buffer contents unchanged, and reports the fatal buffer-full condition
through the fatal-failure callback. -/
theorem C6_fill_buffer_full (st : RdState) (z : Bool) (res : RdRes)
    (hfull : st.offset + st.bytes = st.buf.length) :
    socket_fill st z res = (FillOut.fatalFull, st) := by
  have hlen : st.buf.length - (st.offset + st.bytes) = 0 := by omega
  simp [socket_fill, hlen]

/-- Witness for C6: a buffer of capacity 2 with offset 1 and one
unconsumed byte is full, and fill fails fatally without touching it. -/
theorem C6_fill_buffer_full_witness :
    socket_fill ⟨['a', 'b'], 1, 1, 0⟩ false RdRes.eof =
      (FillOut.fatalFull, ⟨['a', 'b'], 1, 1, 0⟩) :=
  C6_fill_buffer_full ⟨['a', 'b'], 1, 1, 0⟩ false RdRes.eof (by decide)

/-- C5 counterexample: on a plain connection with free buffer space, a
negative read result with errno EAGAIN/EWOULDBLOCK is not a silent no-op;
socket_fill reports it through the fatal-failure callback exactly like a
real I/O error, so the would-block case is surfaced as an error. -/
theorem C5_wouldblock_counterexample :
    socket_fill ⟨['a', 'b', 'c', 'd'], 0, 0, 0⟩ false (RdRes.rerr true) =
      (FillOut.fatalErr, ⟨['a', 'b', 'c', 'd'], 0, 0, 0⟩) := by decide

/-- C5 amended: in socket_fill on a plain connection with free buffer
capacity, a zero-length read result is reported as fatal unexpected EOF
and every negative read result - would-block included, since this path has
no EAGAIN check - is reported as a fatal read error through the
fatal-failure callback; neither changes the buffer state. -/
theorem C5_plain_fill_error_reporting (st : RdState) (z wb : Bool)
    (hcap : st.offset + st.bytes < st.buf.length) :
    socket_fill st z RdRes.eof = (FillOut.fatalEof, st) ∧
    socket_fill st z (RdRes.rerr wb) = (FillOut.fatalErr, st) := by
  have hlen : st.buf.length - (st.offset + st.bytes) ≠ 0 := by omega
  constructor <;> simp [socket_fill, hlen]

/-- Witness for the amended C5 on a concrete connection state. -/
theorem C5_plain_fill_error_reporting_witness :
    socket_fill ⟨['a', 'b'], 0, 0, 0⟩ false RdRes.eof =
        (FillOut.fatalEof, ⟨['a', 'b'], 0, 0, 0⟩) ∧
    socket_fill ⟨['a', 'b'], 0, 0, 0⟩ false (RdRes.rerr true) =
        (FillOut.fatalErr, ⟨['a', 'b'], 0, 0, 0⟩) :=
  C5_plain_fill_error_reporting ⟨['a', 'b'], 0, 0, 0⟩ false true (by decide)

/-- C4: evaluation of the code contradicting the claim.  socket_fill never
consults the inflate state installed by socket_start_deflate: with
compression enabled the fill behaves exactly as with it disabled, and the
raw socket bytes land in the read buffer verbatim, not decompressed, as
the concrete evaluation shows. -/
theorem C4_fill_bypasses_inflate :
    (socket_start_deflate ⟨false, false⟩).in_z = true ∧
    (∀ (st : RdState) (res : RdRes),
        socket_fill st (socket_start_deflate ⟨false, false⟩).in_z res =
          socket_fill st false res) ∧
    socket_fill ⟨[' ', ' ', ' ', ' '], 0, 0, 0⟩
        (socket_start_deflate ⟨false, false⟩).in_z (RdRes.rdata ['\x78', '\x01']) =
      (FillOut.readCb false, ⟨['\x78', '\x01', ' ', ' '], 0, 2, 0⟩) :=
  ⟨rfl, fun _ _ => rfl, by decide⟩

/-- C9: from a read buffer whose unconsumed contents are exactly the five
bytes A CR LF B LF at offset 0 with scanoff 0, two successive
socket_read_line calls return "A" then "B" with the carriage return and
newline stripped, advance offset by exactly 3 then 2, decrease bytes by
the same amounts, and leave scanoff 0 after each successful extraction. -/
theorem C9_read_line_crlf (post : List Char) :
    (socket_read_line ⟨'A' :: '\r' :: '\n' :: 'B' :: '\n' :: post, 0, 5, 0⟩).1 =
        some ['A'] ∧
    (socket_read_line ⟨'A' :: '\r' :: '\n' :: 'B' :: '\n' :: post, 0, 5, 0⟩).2 =
        ⟨'A' :: '\x00' :: '\n' :: 'B' :: '\n' :: post, 3, 2, 0⟩ ∧
    (socket_read_line ⟨'A' :: '\x00' :: '\n' :: 'B' :: '\n' :: post, 3, 2, 0⟩).1 =
        some ['B'] ∧
    (socket_read_line ⟨'A' :: '\x00' :: '\n' :: 'B' :: '\n' :: post, 3, 2, 0⟩).2 =
        ⟨'A' :: '\x00' :: '\n' :: 'B' :: '\x00' :: post, 5, 0, 0⟩ := by
  refine ⟨?_, ?_, ?_, ?_⟩ <;>
    simp [socket_read_line, memchrFrom, List.findIdx?, List.take, List.set]

/-- C10: on a TLS connection, when SSL_read fills the entire remaining
buffer capacity the read callback is preceded by a fake readable event
exactly when SSL_pending reports buffered decrypted data, and when
do_queued_write fully drains a nonempty write queue a fake readable event
is injected exactly when SSL_pending reports buffered data - so decrypted
bytes buffered in the TLS layer are never left stranded. -/
theorem C10_ssl_pending_fake_readable :
    (∀ (st : RdState) (d : List Char) (pending : Bool),
        st.offset + st.bytes < st.buf.length →
        d.length = st.buf.length - (st.offset + st.bytes) →
        (socket_fill_ssl st (SslRdRes.sdata d) pending).1 = FillOut.readCb pending) ∧
    (∀ (st : WQState) (sched : List Nat) (pending : Bool),
        st.write_buf ≠ [] →
        (do_queued_write st sched pending).st.write_buf = [] →
        (do_queued_write st sched pending).fake = pending) := by
  constructor
  · intro st d pending hcap hlen
    have h0 : st.buf.length - (st.offset + st.bytes) ≠ 0 := by omega
    simp [socket_fill_ssl, h0, hlen]
  · intro st sched pending hne hdr
    obtain ⟨q, woff⟩ := st
    cases q with
    | nil => exact absurd rfl hne
    | cons bc rest =>
        simp only [do_queued_write] at hdr ⊢
        rw [hdr]
        simp

/-- Witness for C10: a capacity-filling SSL read with pending data, and a
fully drained one-chunk queue with pending data, both inject the event. -/
theorem C10_ssl_pending_fake_readable_witness :
    (socket_fill_ssl ⟨['a', 'b'], 0, 0, 0⟩ (SslRdRes.sdata ['x', 'y']) true).1 =
        FillOut.readCb true ∧
    (do_queued_write ⟨[['a']], 0⟩ [5] true).fake = true :=
  ⟨C10_ssl_pending_fake_readable.1 ⟨['a', 'b'], 0, 0, 0⟩ ['x', 'y'] true
     (by decide) (by decide),
   C10_ssl_pending_fake_readable.2 ⟨[['a']], 0⟩ [5] true
     (by decide) (by decide)⟩

/-- C7: socket_connect invokes the connect callback exactly once: with
failure when resolution fails, with success at the first candidate whose
connect completes - each earlier failed candidate contributing only a
descriptor close and a cursor advance, never a callback - and with failure
when every candidate has failed. -/
theorem C7_connect_callback_once :
    socket_connect none = [ConnEv.connectCb false] ∧
    (∀ addrs : List Bool,
        socket_connect (some addrs) =
          match addrs.findIdx? (fun b => b) with
          | some i => List.replicate i ConnEv.closeFd ++ [ConnEv.connectCb true]
          | none =>
              List.replicate addrs.length ConnEv.closeFd ++ [ConnEv.connectCb false]) ∧
    (∀ r : Option (List Bool),
        ((socket_connect r).filter isConnectCb).length = 1) := by
  have key : ∀ addrs : List Bool,
      socket_connect_one addrs =
        match addrs.findIdx? (fun b => b) with
        | some i => List.replicate i ConnEv.closeFd ++ [ConnEv.connectCb true]
        | none =>
            List.replicate addrs.length ConnEv.closeFd ++ [ConnEv.connectCb false] := by
    intro addrs
    induction addrs with
    | nil => simp [socket_connect_one]
    | cons b rest ih =>
        cases b with
        | true => simp [socket_connect_one, List.findIdx?_cons]
        | false =>
            simp only [socket_connect_one, ih, List.findIdx?_cons]
            cases hf : rest.findIdx? (fun b => b) with
            | none => simp [hf, List.replicate_succ]
            | some i => simp [hf, List.replicate_succ]
  have key3 : ∀ addrs : List Bool,
      ((socket_connect_one addrs).filter isConnectCb).length = 1 := by
    intro addrs
    induction addrs with
    | nil => simp [socket_connect_one, isConnectCb]
    | cons b rest ih =>
        cases b with
        | true => simp [socket_connect_one, isConnectCb]
        | false => simp [socket_connect_one, isConnectCb, ih]
  refine ⟨rfl, key, ?_⟩
  intro r
  cases r with
  | none => simp [socket_connect, isConnectCb]
  | some addrs => simpa [socket_connect] using key3 addrs

/-- C8: evaluation of the code contradicting the claim's exactly-once
guarantee.  Three compressed do_write calls produce deflate outputs "ab",
"cd", "e".  The first write is partially accepted, leaving the leftover
window "b".  The second call flushes "b" completely, but
in_z_leftover_len is never reset; it then writes "cd" completely, so the
stale window survives.  The third call therefore transmits "b" again
before "e": the transport receives "abcdbe" instead of the compressed
stream "abcde" - a leftover byte is handed to the transport twice. -/
theorem C8_stale_leftover_duplicates :
    run_z [] [(['a', 'b'], 2, 1, 0), (['c', 'd'], 2, 1, 2), (['e'], 1, 1, 1)] =
        ['a', 'b', 'c', 'd', 'b', 'e'] ∧
    run_z [] [(['a', 'b'], 2, 1, 0), (['c', 'd'], 2, 1, 2), (['e'], 1, 1, 1)] ≠
        ['a', 'b'] ++ ['c', 'd'] ++ ['e'] :=
  ⟨by decide, by decide⟩

end SocketModel
